import Mathlib

/-!
Verification of the VancouverCrimes analysis scripts.

This file gives a shallow embedding, in Lean 4, of the data-preparation and
statistics logic of the two scripts `vancouver_crime_map.py` (Pipeline B:
spatial aggregation) and `initial_plots.py` (Pipeline A: statistical summary),
together with theorems settling the specified properties of that logic.

Conventions of the embedding:
* pandas rows become Lean structures; missing values (NaN) become `Option`;
* numeric values are modelled by exact rationals `ℚ`;
* irrational quantities produced by the code (natural logarithms, square
  roots, t-distribution tail probabilities) are carried symbolically: a value
  `ln a` is represented by its rational argument `a`, a value `n / sqrt d` by
  the rational pair `(n, d)`, so that every definition stays computable while
  the algebraic content (equalities, signs, monotonicity) is preserved
  exactly.
-/

namespace VancouverCrimes

/-! ## Pipeline B: `vancouver_crime_map.py` — neighbourhood-count aggregator -/

/-- One crime-event record of `crimedata_van.zip`: the two columns the script
uses, the neighbourhood name and the year. -/
structure Event where
  neighbourhood : String
  year : Int
deriving DecidableEq

/-- The two-entry rename table applied by
`data['NEIGHBOURHOOD'].replace({'Central Business District': 'Downtown',
'Musqueam': 'Dunbar Southlands'})`. -/
def renameNeighbourhood (s : String) : String :=
  if s = "Central Business District" then "Downtown"
  else if s = "Musqueam" then "Dunbar Southlands"
  else s

/-- The event preparation of `vancouver_crime_map.py` lines 28–37, in the
order the script performs it: rename the two labels, drop Stanley Park,
keep only year 2021. -/
def prepEvents (events : List Event) : List Event :=
  (((events.map fun e => { e with neighbourhood := renameNeighbourhood e.neighbourhood }).filter
      fun e => e.neighbourhood ≠ "Stanley Park").filter
    fun e => e.year = 2021)

/-- Embedding of `Series.value_counts()` restricted to what the script uses:
one row per distinct value together with its number of occurrences.  (pandas
additionally orders the rows by descending count; no claim depends on row
order, so the embedding keeps first-dedup order.) -/
def valueCounts (xs : List String) : List (String × Nat) :=
  xs.dedup.map fun v => (v, xs.count v)

/-- The aggregate `crime_counts` of `vancouver_crime_map.py` line 40: the
`value_counts` of the prepared events' neighbourhood column. -/
def crime_counts (events : List Event) : List (String × Nat) :=
  valueCounts ((prepEvents events).map Event.neighbourhood)

/-- The four-event example of the specification's testable property for the
aggregator. -/
def exampleEvents : List Event :=
  [⟨"Downtown", 2021⟩, ⟨"Central Business District", 2021⟩,
   ⟨"Stanley Park", 2021⟩, ⟨"X", 2020⟩]

lemma valueCounts_mem {xs : List String} {pr : String × Nat}
    (h : pr ∈ valueCounts xs) : 1 ≤ pr.2 ∧ pr.2 = xs.count pr.1 := by
  rcases List.mem_map.mp h with ⟨v, hv, rfl⟩
  exact ⟨List.count_pos_iff.mpr (List.mem_dedup.mp hv), rfl⟩

lemma valueCounts_keys_nodup (xs : List String) :
    ((valueCounts xs).map Prod.fst).Nodup := by
  have : (valueCounts xs).map Prod.fst = xs.dedup := by
    simp only [valueCounts, List.map_map, Function.comp_def]
    exact List.map_id' xs.dedup
  rw [this]
  exact xs.nodup_dedup

/-- C1.  The aggregator first renames Central Business District to Downtown
and Musqueam to Dunbar Southlands, then drops Stanley Park events, then keeps
only year-2021 events, and finally counts events per neighbourhood, producing
one row per distinct remaining neighbourhood, each with count at least 1; on
the concrete events [("Downtown",2021), ("Central Business District",2021),
("Stanley Park",2021), ("X",2020)] the result is exactly {"Downtown": 2}. -/
theorem crime_counts_spec :
    (∀ events : List Event,
      prepEvents events =
        (((events.map fun e =>
              { e with neighbourhood := renameNeighbourhood e.neighbourhood }).filter
            fun e => e.neighbourhood ≠ "Stanley Park").filter
          fun e => e.year = 2021)) ∧
    (∀ events : List Event, ∀ pr ∈ crime_counts events,
      1 ≤ pr.2 ∧ pr.2 = ((prepEvents events).map Event.neighbourhood).count pr.1) ∧
    (∀ events : List Event, ((crime_counts events).map Prod.fst).Nodup) ∧
    crime_counts exampleEvents = [("Downtown", 2)] := by
  refine ⟨fun _ => rfl, fun events pr hpr => valueCounts_mem hpr,
    fun events => valueCounts_keys_nodup _, ?_⟩
  decide

/-- Concrete instantiation of `crime_counts_spec`'s per-row clause at the
example events and the row ("Downtown", 2). -/
theorem crime_counts_spec_witness :
    1 ≤ (("Downtown", 2) : String × Nat).2 ∧
      (("Downtown", 2) : String × Nat).2 =
        ((prepEvents exampleEvents).map Event.neighbourhood).count "Downtown" :=
  crime_counts_spec.2.1 exampleEvents ("Downtown", 2) (by decide)

/-! ## Pipeline B: count-to-geometry left join and log colour scale -/

/-- The rows of `crime_counts` that match one boundary polygon `p`, as the
pandas left merge produces them: all aggregate rows keyed `p`, or, when there
is none, a single row for `p` whose missing count is filled with 0
(`fillna(0)`, line 89). -/
def mergeBlock (agg : List (String × Nat)) (p : String) : List (String × Nat) :=
  let ms := (agg.filter fun kv => kv.1 = p).map fun kv => (p, kv.2)
  if ms.isEmpty then [(p, 0)] else ms

/-- Embedding of `neighborhoods.merge(crime_counts, on='NEIGHBOURHOOD',
how='left')` followed by `fillna(0)` (`vancouver_crime_map.py` lines 88–89):
one block of matching rows per boundary polygon, in boundary order.  The
polygon geometry plays no role in the join and is not modelled; a polygon is
represented by its name. -/
def leftMergeFill0 : List String → List (String × Nat) → List (String × Nat)
  | [], _ => []
  | p :: ps, agg => mergeBlock agg p ++ leftMergeFill0 ps agg

lemma filter_key_length_le_one {agg : List (String × Nat)}
    (hnd : (agg.map Prod.fst).Nodup) (p : String) :
    (agg.filter fun kv => kv.1 = p).length ≤ 1 := by
  induction agg with
  | nil => simp
  | cons kv t ih =>
    rcases List.nodup_cons.mp hnd with ⟨hk, ht⟩
    by_cases h : kv.1 = p
    · have : (t.filter fun u => u.1 = p) = [] := by
        rw [List.filter_eq_nil_iff]
        intro u hu
        simp only [decide_eq_true_eq]
        intro hup
        exact hk (h ▸ hup ▸ List.mem_map_of_mem Prod.fst hu)
      simp [List.filter_cons, h, this]
    · simpa [List.filter_cons, h] using ih ht

lemma mergeBlock_fst {agg : List (String × Nat)}
    (hnd : (agg.map Prod.fst).Nodup) (p : String) :
    (mergeBlock agg p).map Prod.fst = [p] := by
  unfold mergeBlock
  by_cases h : ((agg.filter fun kv => kv.1 = p).map fun kv => (p, kv.2)).isEmpty
  · simp [h]
  · have hlen := filter_key_length_le_one hnd p
    have hne : (agg.filter fun kv => kv.1 = p) ≠ [] := by
      intro hc
      simp [hc] at h
    have h1 : (agg.filter fun kv => kv.1 = p).length = 1 := by
      have := List.length_pos.mpr hne
      omega
    rcases List.length_eq_one.mp h1 with ⟨kv, hkv⟩
    simp [h, hkv]

lemma leftMergeFill0_fst {agg : List (String × Nat)}
    (hnd : (agg.map Prod.fst).Nodup) (polys : List String) :
    (leftMergeFill0 polys agg).map Prod.fst = polys := by
  induction polys with
  | nil => rfl
  | cons p ps ih =>
    simp only [leftMergeFill0, List.map_append, ih, mergeBlock_fst hnd p]
    rfl

lemma leftMergeFill0_unmatched {agg : List (String × Nat)} {polys : List String}
    {p : String} (hp : p ∈ polys) (habs : ∀ kv ∈ agg, kv.1 ≠ p) :
    (p, 0) ∈ leftMergeFill0 polys agg := by
  induction polys with
  | nil => cases hp
  | cons q qs ih =>
    rcases List.mem_cons.mp hp with rfl | hmem
    · have hfil : (agg.filter fun kv => kv.1 = p) = [] := by
        rw [List.filter_eq_nil_iff]
        intro u hu
        simpa using habs u hu
      simp [leftMergeFill0, mergeBlock, hfil]
    · exact List.mem_append_right _ (ih hmem)

/-- C2.  Under a well-formed aggregate (its join key, the neighbourhood name,
has no duplicates — as `value_counts` guarantees), the left join followed by
`fillna(0)` lists exactly the boundary polygons, in order; a polygon with no
matching aggregate row gets count 0; and when the boundary names are distinct
every polygon appears exactly once in the output. -/
theorem leftMergeFill0_spec (polys : List String) (agg : List (String × Nat))
    (hnd : (agg.map Prod.fst).Nodup) :
    ((leftMergeFill0 polys agg).map Prod.fst = polys) ∧
    (∀ p ∈ polys, (∀ kv ∈ agg, kv.1 ≠ p) → (p, 0) ∈ leftMergeFill0 polys agg) ∧
    (polys.Nodup → ∀ p ∈ polys,
      ((leftMergeFill0 polys agg).filter fun r => r.1 = p).length = 1) := by
  refine ⟨leftMergeFill0_fst hnd polys,
    fun p hp habs => leftMergeFill0_unmatched hp habs, fun hpn p hp => ?_⟩
  have hcount : polys.count p = 1 := List.count_eq_one_of_mem hpn hp
  calc ((leftMergeFill0 polys agg).filter fun r => r.1 = p).length
      = (leftMergeFill0 polys agg).countP (fun r => r.1 = p) :=
        (List.countP_eq_length_filter _ _).symm
    _ = ((leftMergeFill0 polys agg).map Prod.fst).countP (fun s => s = p) := by
        rw [List.countP_map]
        rfl
    _ = polys.countP (fun s => s = p) := by
        rw [leftMergeFill0_fst hnd polys]
    _ = polys.count p := by
        rw [List.count_eq_countP]
        exact List.countP_congr fun x _ => by simp
    _ = 1 := hcount

/-- Concrete instantiation of `leftMergeFill0_spec` at two polygons and a
one-row aggregate: polygon B is absent from the aggregate and gets count 0,
and each polygon yields exactly one output row. -/
theorem leftMergeFill0_spec_witness :
    ((leftMergeFill0 ["A", "B"] [("A", 3)]).map Prod.fst = ["A", "B"]) ∧
    (∀ p ∈ ["A", "B"], (∀ kv ∈ [(("A" : String), (3 : Nat))], kv.1 ≠ p) →
      (p, 0) ∈ leftMergeFill0 ["A", "B"] [("A", 3)]) ∧
    ((["A", "B"] : List String).Nodup → ∀ p ∈ ["A", "B"],
      ((leftMergeFill0 ["A", "B"] [("A", 3)]).filter fun r => r.1 = p).length = 1) :=
  leftMergeFill0_spec ["A", "B"] [("A", 3)] (by decide)

/-- Value of the float expression `np.log(c)` for a nonnegative count `c`,
carried symbolically.  Modelled from the spec: `np.log` is numpy library code
absent from src/; by numpy's documented IEEE semantics `np.log(0)` evaluates
to negative infinity (emitting a warning, not raising), and `np.log(c)` for
`c > 0` is the finite value ln c, represented here by its argument. -/
inductive NpLog where
  | negInf : NpLog
  | lnOf : ℚ → NpLog
deriving DecidableEq

/-- Embedding of `np.log(neighborhoods.CRIME_COUNT)` applied to one count
(`vancouver_crime_map.py` line 97).  Total: every count yields a value. -/
def npLogCount (c : Nat) : NpLog :=
  if c = 0 then NpLog.negInf else NpLog.lnOf c

/-- The `CRIME_COUNT_log` column: `np.log` applied uniformly to the count of
every joined row. -/
def logCountColumn (rows : List (String × Nat)) : List (String × NpLog) :=
  rows.map fun r => (r.1, npLogCount r.2)

/-- C8.  The log of the joined crime counts follows one uniform total policy:
the same function `npLogCount` is applied to every row (so the transform never
fails on any row), a count of 0 — in particular every polygon whose count was
defaulted to 0 by the left join — is mapped to negative infinity, and every
non-zero count to its finite logarithm. -/
theorem logCountColumn_spec (polys : List String) (agg : List (String × Nat)) :
    (logCountColumn (leftMergeFill0 polys agg) =
      (leftMergeFill0 polys agg).map fun r => (r.1, npLogCount r.2)) ∧
    (∀ p ∈ polys, (∀ kv ∈ agg, kv.1 ≠ p) →
      (p, NpLog.negInf) ∈ logCountColumn (leftMergeFill0 polys agg)) ∧
    (∀ r ∈ leftMergeFill0 polys agg,
      (r.2 = 0 → npLogCount r.2 = NpLog.negInf) ∧
      (r.2 ≠ 0 → npLogCount r.2 = NpLog.lnOf r.2)) := by
  refine ⟨rfl, fun p hp habs => ?_, fun r _ => ?_⟩
  · have h0 : (p, 0) ∈ leftMergeFill0 polys agg := leftMergeFill0_unmatched hp habs
    exact List.mem_map.mpr ⟨(p, 0), h0, by simp [npLogCount]⟩
  · constructor
    · intro h
      simp [npLogCount, h]
    · intro h
      simp [npLogCount, h]

/-- Concrete instantiation of `logCountColumn_spec`: with boundary polygons A
and B and a single aggregate row for A, polygon B's defaulted count 0 is
logged to negative infinity. -/
theorem logCountColumn_spec_witness :
    (("B", NpLog.negInf) ∈ logCountColumn (leftMergeFill0 ["A", "B"] [("A", 3)])) :=
  (logCountColumn_spec ["A", "B"] [("A", 3)]).2.1 "B" (by decide) (by decide)

/-! ## Pipeline B: quantile bin computer for the choropleth colour scale -/

/-- Linear interpolation at fractional position `h` into a sorted list of
values, the scheme of `Series.quantile` with its default linear
interpolation: with `i = ⌊h⌋` and `j = ⌈h⌉`, the value is
`s[i] + (h - i) * (s[j] - s[i])`. -/
def interpAt (s : List ℚ) (h : ℚ) : ℚ :=
  s.getD (⌊h⌋).toNat 0 + (h - (⌊h⌋ : ℚ)) * (s.getD (⌈h⌉).toNat 0 - s.getD (⌊h⌋).toNat 0)

/-- Embedding of `Series.quantile(q)`: sort the values ascending and
interpolate at position `q * (n - 1)`. -/
def seriesQuantile (xs : List ℚ) (q : ℚ) : ℚ :=
  interpAt (List.insertionSort (· ≤ ·) xs) (q * ((xs.length : ℚ) - 1))

/-- The fixed quantile fractions of `vancouver_crime_map.py` line 99. -/
def binFractions : List ℚ := [0, 1/5, 2/5, 3/5, 19/20, 1]

/-- The choropleth bin edges: the data values at the fixed quantile
fractions. -/
def choroplethBins (xs : List ℚ) : List ℚ := binFractions.map (seriesQuantile xs)

/-- A tied sample in the shape the specification describes: many
neighbourhoods sharing the minimal log count, so that the 0th and 20th
percentiles coincide. -/
def tieCounts : List ℚ := [0, 0, 0, 0, 0, 0, 0, 0, 0, 0, 1, 2]

lemma getD_mono_of_sorted {s : List ℚ} (hs : List.Sorted (· ≤ ·) s)
    {i j : Nat} (hij : i ≤ j) (hj : j < s.length) :
    s.getD i 0 ≤ s.getD j 0 := by
  have hi : i < s.length := Nat.lt_of_le_of_lt hij hj
  have hget : s.get ⟨i, hi⟩ ≤ s.get ⟨j, hj⟩ := hs.rel_get_of_le (Fin.mk_le_mk.mpr hij)
  rw [List.getD_eq_getElem?_getD, List.getD_eq_getElem?_getD,
    List.getElem?_eq_getElem hi, List.getElem?_eq_getElem hj]
  simpa using hget

lemma interpAt_bounds {s : List ℚ} (hs : List.Sorted (· ≤ ·) s) {h : ℚ}
    (h0 : 0 ≤ h) (hN : h ≤ (s.length : ℚ) - 1) :
    s.getD (⌊h⌋).toNat 0 ≤ interpAt s h ∧
      interpAt s h ≤ s.getD (⌈h⌉).toNat 0 := by
  have hjle : ⌈h⌉ ≤ (s.length : ℤ) - 1 := by
    rw [Int.ceil_le]
    push_cast
    exact hN
  have hfl0 : 0 ≤ ⌊h⌋ := Int.floor_nonneg.mpr h0
  have hflc : ⌊h⌋ ≤ ⌈h⌉ := Int.floor_le_ceil h
  have hjlt : (⌈h⌉).toNat < s.length := by omega
  have hab : s.getD (⌊h⌋).toNat 0 ≤ s.getD (⌈h⌉).toNat 0 :=
    getD_mono_of_sorted hs (by omega) hjlt
  have hfr0 : 0 ≤ h - (⌊h⌋ : ℚ) := sub_nonneg.mpr (Int.floor_le h)
  have hfr1 : h - (⌊h⌋ : ℚ) ≤ 1 := by
    have := Int.lt_floor_add_one h
    linarith
  constructor
  · unfold interpAt
    nlinarith [mul_nonneg hfr0 (sub_nonneg.mpr hab)]
  · unfold interpAt
    nlinarith [mul_le_mul_of_nonneg_right hfr1 (sub_nonneg.mpr hab)]

lemma interpAt_mono {s : List ℚ} (hs : List.Sorted (· ≤ ·) s) {h h' : ℚ}
    (h0 : 0 ≤ h) (hhh : h ≤ h') (hN : h' ≤ (s.length : ℚ) - 1) :
    interpAt s h ≤ interpAt s h' := by
  have h0' : 0 ≤ h' := le_trans h0 hhh
  have hNh : h ≤ (s.length : ℚ) - 1 := le_trans hhh hN
  by_cases hf : ⌊h⌋ = ⌊h'⌋
  · by_cases hint : (⌊h⌋ : ℚ) = h
    · have ha : interpAt s h = s.getD (⌊h⌋).toNat 0 := by
        unfold interpAt
        rw [sub_eq_zero.mpr hint.symm]
        ring
      rw [ha, hf]
      exact (interpAt_bounds hs h0' hN).1
    · have hlt : (⌊h⌋ : ℚ) < h := lt_of_le_of_ne (Int.floor_le h) hint
      have hch : ⌈h⌉ = ⌊h⌋ + 1 := by
        have h1 : ⌊h⌋ < ⌈h⌉ := by
          have h2 : (⌊h⌋ : ℚ) < (⌈h⌉ : ℚ) := lt_of_lt_of_le hlt (Int.le_ceil h)
          exact_mod_cast h2
        have h3 := Int.ceil_le_floor_add_one h
        omega
      have hlt' : (⌊h'⌋ : ℚ) < h' := by
        rw [← hf]
        exact lt_of_lt_of_le hlt hhh
      have hch' : ⌈h'⌉ = ⌊h'⌋ + 1 := by
        have h1 : ⌊h'⌋ < ⌈h'⌉ := by
          have h2 : (⌊h'⌋ : ℚ) < (⌈h'⌉ : ℚ) := lt_of_lt_of_le hlt' (Int.le_ceil h')
          exact_mod_cast h2
        have h3 := Int.ceil_le_floor_add_one h'
        omega
      have hceq : ⌈h⌉ = ⌈h'⌉ := by rw [hch, hch', hf]
      have hjle : ⌈h'⌉ ≤ (s.length : ℤ) - 1 := by
        rw [Int.ceil_le]
        push_cast
        exact hN
      have hfl0 : 0 ≤ ⌊h'⌋ := Int.floor_nonneg.mpr h0'
      have hflc : ⌊h'⌋ ≤ ⌈h'⌉ := Int.floor_le_ceil h'
      have hjlt : (⌈h'⌉).toNat < s.length := by omega
      have hab : s.getD (⌊h'⌋).toNat 0 ≤ s.getD (⌈h'⌉).toNat 0 :=
        getD_mono_of_sorted hs (by omega) hjlt
      unfold interpAt
      rw [hf, hceq]
      have hm := mul_le_mul_of_nonneg_right
        (by linarith : h - (⌊h'⌋ : ℚ) ≤ h' - (⌊h'⌋ : ℚ))
        (sub_nonneg.mpr hab)
      linarith
  · have hflt : ⌊h⌋ < ⌊h'⌋ := lt_of_le_of_ne (Int.floor_mono hhh) hf
    have hjle' : ⌈h'⌉ ≤ (s.length : ℤ) - 1 := by
      rw [Int.ceil_le]
      push_cast
      exact hN
    have hflc' : ⌊h'⌋ ≤ ⌈h'⌉ := Int.floor_le_ceil h'
    have hfl0 : 0 ≤ ⌊h⌋ := Int.floor_nonneg.mpr h0
    have hc1 : ⌈h⌉ ≤ ⌊h'⌋ := le_trans (Int.ceil_le_floor_add_one h) (by omega)
    have h1 : interpAt s h ≤ s.getD (⌈h⌉).toNat 0 := (interpAt_bounds hs h0 hNh).2
    have h2 : s.getD (⌊h'⌋).toNat 0 ≤ interpAt s h' := (interpAt_bounds hs h0' hN).1
    have hmid : s.getD (⌈h⌉).toNat 0 ≤ s.getD (⌊h'⌋).toNat 0 :=
      getD_mono_of_sorted hs (by omega) (by omega)
    linarith

lemma seriesQuantile_mono {xs : List ℚ} (hne : xs ≠ []) {q q' : ℚ}
    (hq0 : 0 ≤ q) (hqq : q ≤ q') (hq1 : q' ≤ 1) :
    seriesQuantile xs q ≤ seriesQuantile xs q' := by
  have hn : 1 ≤ xs.length := List.length_pos.mpr hne
  have hN0 : (0 : ℚ) ≤ (xs.length : ℚ) - 1 := by
    have h1 : (1 : ℚ) ≤ (xs.length : ℚ) := by exact_mod_cast hn
    linarith
  have hsort : List.Sorted (· ≤ ·) (List.insertionSort (· ≤ ·) xs) :=
    List.sorted_insertionSort (· ≤ ·) xs
  unfold seriesQuantile
  apply interpAt_mono hsort
  · exact mul_nonneg hq0 hN0
  · exact mul_le_mul_of_nonneg_right hqq hN0
  · rw [List.length_insertionSort]
    nlinarith

lemma tie_edge_eq : seriesQuantile tieCounts 0 = 0 ∧ seriesQuantile tieCounts (1/5) = 0 := by
  have hsort : List.insertionSort (· ≤ ·) tieCounts = tieCounts := by decide
  constructor
  · unfold seriesQuantile interpAt
    rw [hsort]
    have hL : (0 : ℚ) * ((tieCounts.length : ℚ) - 1) = 0 := by ring
    rw [hL, Int.floor_zero, Int.ceil_zero]
    have h0 : tieCounts.getD ((0 : ℤ).toNat) 0 = 0 := rfl
    rw [h0]
    ring
  · unfold seriesQuantile interpAt
    rw [hsort]
    have hL : (1 : ℚ)/5 * ((tieCounts.length : ℚ) - 1) = 11/5 := by
      norm_num [tieCounts]
    rw [hL]
    have hfl : ⌊(11 : ℚ)/5⌋ = 2 := by norm_num
    have hcl : ⌈(11 : ℚ)/5⌉ = 3 := by
      rw [Int.ceil_eq_iff]
      constructor <;> norm_num
    rw [hfl, hcl]
    have h2 : tieCounts.getD ((2 : ℤ).toNat) 0 = 0 := rfl
    have h3 : tieCounts.getD ((3 : ℤ).toNat) 0 = 0 := rfl
    rw [h2, h3]
    norm_num

/-- C6.  On every non-empty list of (log-transformed) counts, the bin edges
computed at the fixed ascending fractions (0, 0.20, 0.40, 0.60, 0.95, 1.0)
form a non-decreasing sequence, and a tied sample with many minimal values
yields equal first and second edges — a degenerate zero-width bin, not a
failure. -/
theorem choroplethBins_spec (xs : List ℚ) (hne : xs ≠ []) :
    List.Chain' (· ≤ ·) (choroplethBins xs) ∧
      (choroplethBins tieCounts).take 2 = [(0 : ℚ), 0] := by
  constructor
  · have m : ∀ {a b : ℚ}, 0 ≤ a → a ≤ b → b ≤ 1 →
        seriesQuantile xs a ≤ seriesQuantile xs b :=
      fun ha hab hb => seriesQuantile_mono hne ha hab hb
    simp only [choroplethBins, binFractions, List.map_cons, List.map_nil]
    refine List.chain'_cons.mpr ⟨m (by norm_num) (by norm_num) (by norm_num), ?_⟩
    refine List.chain'_cons.mpr ⟨m (by norm_num) (by norm_num) (by norm_num), ?_⟩
    refine List.chain'_cons.mpr ⟨m (by norm_num) (by norm_num) (by norm_num), ?_⟩
    refine List.chain'_cons.mpr ⟨m (by norm_num) (by norm_num) (by norm_num), ?_⟩
    refine List.chain'_cons.mpr ⟨m (by norm_num) (by norm_num) (by norm_num), ?_⟩
    exact List.chain'_singleton _
  · show [seriesQuantile tieCounts 0, seriesQuantile tieCounts (1/5)] = [(0 : ℚ), 0]
    rw [tie_edge_eq.1, tie_edge_eq.2]

/-- Concrete instantiation of `choroplethBins_spec` at the tied sample: its
six edges are non-decreasing and its first two edges are both 0. -/
theorem choroplethBins_spec_witness :
    List.Chain' (· ≤ ·) (choroplethBins tieCounts) ∧
      (choroplethBins tieCounts).take 2 = [(0 : ℚ), 0] :=
  choroplethBins_spec tieCounts (by decide)

/-! ## Pipeline A: `initial_plots.py` — row filter and log transform -/

/-- The fixed list of ten demographic attribute names. -/
def demographics : List String :=
  ["pop_density", "dropouts_to_grads", "one_parent_to_two", "crowded_to_not",
   "children_to_adults", "non_minority_to_minority", "male_to_female",
   "divorce_rate", "home_renters_to_owners", "low_income_status_pct"]

/-- The response column name, `y = 'crime_rate'`. -/
def crimeRateKey : String := "crime_rate"

/-- One row of the joined crime+census table: a mapping from column name to
an optional rational value, `none` standing for a missing entry (NaN). -/
structure Row where
  attrs : String → Option ℚ

/-- Embedding of `DataFrame.dropna(subset=cols)`: keep exactly the rows
whose listed columns are all present. -/
def dropnaSubset (subset : List String) (rows : List Row) : List Row :=
  rows.filter fun r => subset.all fun c => (r.attrs c).isSome

/-- The filtered sample of line 49, `data = data.dropna(subset=demographics)`,
computed once; every later statistic reads from it. -/
def filteredSample (rows : List Row) : List Row := dropnaSubset demographics rows

/-- The `crime_rate` column of the filtered sample. -/
def crimeRateColumn (rows : List Row) : List (Option ℚ) :=
  (filteredSample rows).map fun r => r.attrs crimeRateKey

/-- The values the line-50 box plot (and line-58 histogram) receives. -/
def boxplotInput (rows : List Row) : List (Option ℚ) := crimeRateColumn rows

/-- One demographic column of the filtered sample. -/
def featureColumn (rows : List Row) (x : String) : List (Option ℚ) :=
  (filteredSample rows).map fun r => r.attrs x

/-- The ε of line 66, `np.log(data[y] + 0.0000001)`. -/
def epsA : ℚ := 1/10000000

/-- Symbolic value of the float `np.log(a)` for a shifted rate `a`: the
logarithm is irrational, so the value is carried by its argument. -/
structure LnExpr where
  arg : ℚ
deriving DecidableEq

/-- The log transform applied to one rate: ln (rate + ε). -/
def logTransform (rate : ℚ) : LnExpr := ⟨rate + epsA⟩

/-- The `log_crime_rate` column of line 66: the transform applied uniformly
to the crime-rate column (a missing entry propagates as missing). -/
def logRateColumn (rows : List Row) : List (Option LnExpr) :=
  (crimeRateColumn rows).map (Option.map logTransform)

/-- Input pair of the raw regression of line 69 for feature `x`. -/
def rawFitInput (rows : List Row) (x : String) :
    List (Option ℚ) × List (Option ℚ) :=
  (featureColumn rows x, crimeRateColumn rows)

/-- Input pair of the log regression of line 83 for feature `x`. -/
def logFitInput (rows : List Row) (x : String) :
    List (Option ℚ) × List (Option LnExpr) :=
  (featureColumn rows x, logRateColumn rows)

/-- Column names of the line-114 correlation matrix: the log crime rate
first, then the ten demographics. -/
def corrColumnNames : List String := ("log_" ++ crimeRateKey) :: demographics

/-- The log column as the correlation matrix consumes it. -/
def corrLogColumn (rows : List Row) : List (Option LnExpr) := logRateColumn rows

/-- C4.  Every row the completeness filter retains has all ten demographic
attributes present; the filter is idempotent (re-applying it removes
nothing, so it acts exactly once); and the box plot, both regression
branches and the correlation matrix all read their columns from the same,
already filtered sample. -/
theorem filteredSample_spec (rows : List Row) :
    (∀ r ∈ filteredSample rows, ∀ c ∈ demographics, (r.attrs c).isSome) ∧
    (filteredSample (filteredSample rows) = filteredSample rows) ∧
    (boxplotInput rows = (filteredSample rows).map fun r => r.attrs crimeRateKey) ∧
    (∀ x, rawFitInput rows x =
      ((filteredSample rows).map fun r => r.attrs x,
       (filteredSample rows).map fun r => r.attrs crimeRateKey)) ∧
    (∀ x, logFitInput rows x =
      ((filteredSample rows).map fun r => r.attrs x,
       ((filteredSample rows).map fun r => r.attrs crimeRateKey).map
         (Option.map logTransform))) ∧
    (corrLogColumn rows =
      ((filteredSample rows).map fun r => r.attrs crimeRateKey).map
        (Option.map logTransform)) := by
  refine ⟨?_, ?_, rfl, fun x => rfl, fun x => rfl, rfl⟩
  · intro r hr c hc
    simp only [filteredSample, dropnaSubset, List.mem_filter, List.all_eq_true] at hr
    exact hr.2 c hc
  · simp only [filteredSample, dropnaSubset, List.filter_filter, Bool.and_self]

/-- Concrete instantiation of `filteredSample_spec`: a fully populated row is
retained with each of its ten demographic attributes present. -/
theorem filteredSample_spec_witness :
    (Row.mk fun _ => some 1) ∈ filteredSample [Row.mk fun _ => some 1] ∧
      ((Row.mk fun _ => some 1).attrs "pop_density").isSome := by
  have h : (Row.mk fun _ => some 1) ∈ filteredSample [Row.mk fun _ => some 1] := by
    simp only [filteredSample, dropnaSubset, List.mem_filter, List.all_eq_true]
    exact ⟨List.mem_singleton.mpr rfl, fun c _ => rfl⟩
  exact ⟨h, (filteredSample_spec [Row.mk fun _ => some 1]).1 _ h "pop_density" (by decide)⟩

/-- C5.  The log transform is ln (rate + ε) with the one fixed positive
ε = 10⁻⁷, applied uniformly to the crime-rate column, and it is that same
column the correlation matrix and the log-regression branch consume. -/
theorem logTransform_spec :
    (epsA = 1/10000000) ∧ (0 < epsA) ∧
    (∀ rate : ℚ, logTransform rate = ⟨rate + epsA⟩) ∧
    (∀ rows : List Row, logRateColumn rows =
      (crimeRateColumn rows).map (Option.map fun rate => ⟨rate + epsA⟩)) ∧
    (∀ rows : List Row, corrLogColumn rows = logRateColumn rows) ∧
    (∀ rows : List Row, ∀ x : String, (logFitInput rows x).2 = logRateColumn rows) :=
  ⟨rfl, by norm_num [epsA], fun _ => rfl, fun _ => rfl, fun _ => rfl, fun _ _ => rfl⟩

/-- C10.  The completeness filter tests only the ten demographic columns: a
row whose demographics are all present is retained no matter what its
`crime_rate` entry holds, and that entry — present or missing — lands in the
crime-rate column feeding the box plot and the raw regressions. -/
theorem dropna_ignores_crime_rate (rows : List Row) (r : Row) (hr : r ∈ rows)
    (hdemo : ∀ c ∈ demographics, (r.attrs c).isSome) :
    r ∈ filteredSample rows ∧
    r.attrs crimeRateKey ∈ crimeRateColumn rows ∧
    boxplotInput rows = crimeRateColumn rows ∧
    (∀ x, (rawFitInput rows x).2 = crimeRateColumn rows) := by
  have hmem : r ∈ filteredSample rows := by
    simp only [filteredSample, dropnaSubset, List.mem_filter, List.all_eq_true]
    exact ⟨hr, fun c hc => hdemo c hc⟩
  exact ⟨hmem, List.mem_map_of_mem _ hmem, rfl, fun x => rfl⟩

/-- A row with every demographic present but the crime rate missing. -/
def holedRow : Row := ⟨fun c => if c = crimeRateKey then none else some 1⟩

/-- Concrete instantiation of `dropna_ignores_crime_rate` at `holedRow`: the
row survives the filter even though its crime rate is missing, and the
missing value reaches the downstream columns. -/
theorem dropna_ignores_crime_rate_witness :
    holedRow ∈ filteredSample [holedRow] ∧
    holedRow.attrs crimeRateKey ∈ crimeRateColumn [holedRow] ∧
    boxplotInput [holedRow] = crimeRateColumn [holedRow] ∧
    (∀ x, (rawFitInput [holedRow] x).2 = crimeRateColumn [holedRow]) :=
  dropna_ignores_crime_rate [holedRow] holedRow (List.mem_singleton.mpr rfl) (by decide)

/-! ## Pipeline A: simple linear regression -/

/-- Mean of a list of rationals (the empty list yields 0, by division by the
zero length). -/
def lmean (xs : List ℚ) : ℚ := xs.sum / xs.length

/-- Centered second moment: the sum of (xᵢ − mean x)². -/
def sxx (xs : List ℚ) : ℚ := (xs.map fun a => (a - lmean xs) ^ 2).sum

/-- Centered cross moment: the sum of (xᵢ − mean x)(yᵢ − mean y). -/
def sxy (xs ys : List ℚ) : ℚ :=
  (List.zipWith (fun a b => (a - lmean xs) * (b - lmean ys)) xs ys).sum

/-- Symbolic value num / sqrt denSq, the shape of a Pearson correlation
coefficient; kept rational by storing the numerator and the squared
denominator. -/
structure CorrVal where
  num : ℚ
  denSq : ℚ
deriving DecidableEq

/-- The symbolic value `num / sqrt denSq` equals exactly 1. -/
def CorrVal.isOne (c : CorrVal) : Prop := 0 < c.num ∧ c.num ^ 2 = c.denSq

/-- Symbolic nonnegative square root of a rational, carried by its square. -/
structure SqrtVal where
  sq : ℚ
deriving DecidableEq

/-- Symbolic two-sided p-value 2·(1 − F(t, df)) of the zero-slope t test,
determined by the residual degrees of freedom and the squared t statistic. -/
structure PVal where
  df : ℕ
  tSq : ℚ
deriving DecidableEq

/-- The distinguishable failure of a degenerate regression. -/
inductive RegressError where
  | insufficientData : RegressError
deriving DecidableEq

/-- Result record of a successful regression: the fields
`scipy.stats.linregress` exposes. -/
structure LinFit where
  slope : ℚ
  intercept : ℚ
  rvalue : CorrVal
  pvalue : PVal
  stderr : SqrtVal
  intercept_stderr : SqrtVal
deriving DecidableEq

/-- Modelled from the spec: the simple linear regression of §4.3 is
`scipy.stats.linregress`, library code not under src/.  It requires at least
2 data points with non-zero variance in x, failing with the distinguishable
insufficient-data error otherwise; on success it returns the
ordinary-least-squares slope and intercept, the Pearson correlation
coefficient, the two-sided p-value of the zero-slope null hypothesis, and
the standard errors of slope and intercept, the irrational quantities
carried symbolically (`CorrVal`, `SqrtVal`, `PVal`). -/
def linregress (x y : List ℚ) : Except RegressError LinFit :=
  if x.length < 2 ∨ sxx x = 0 then Except.error RegressError.insufficientData
  else
    let slope := sxy x y / sxx x
    let df : ℕ := x.length - 2
    let stderrSq := ((sxx y - slope * sxy x y) / sxx x) / (df : ℚ)
    Except.ok
      { slope := slope
        intercept := lmean y - slope * lmean x
        rvalue := ⟨sxy x y, sxx x * sxx y⟩
        pvalue := ⟨df, slope ^ 2 / stderrSq⟩
        stderr := ⟨stderrSq⟩
        intercept_stderr := ⟨stderrSq * (sxx x / x.length + lmean x ^ 2)⟩ }

/-- C3.  The regression fails with the insufficient-data error exactly when
x has fewer than 2 points or zero variance; otherwise it succeeds and
returns the ordinary-least-squares slope and intercept, the Pearson
coefficient, the p-value data and both standard errors, as functions of the
input moments. -/
theorem linregress_spec (x y : List ℚ) (_hlen : x.length = y.length) :
    (linregress x y = Except.error RegressError.insufficientData ↔
      (x.length < 2 ∨ sxx x = 0)) ∧
    (¬(x.length < 2 ∨ sxx x = 0) →
      ∃ fit : LinFit, linregress x y = Except.ok fit ∧
        fit.slope = sxy x y / sxx x ∧
        fit.intercept = lmean y - fit.slope * lmean x ∧
        fit.rvalue = ⟨sxy x y, sxx x * sxx y⟩ ∧
        fit.pvalue.df = x.length - 2 ∧
        fit.stderr.sq =
          ((sxx y - fit.slope * sxy x y) / sxx x) / ((x.length - 2 : ℕ) : ℚ) ∧
        fit.intercept_stderr.sq = fit.stderr.sq * (sxx x / x.length + lmean x ^ 2) ∧
        fit.pvalue.tSq = fit.slope ^ 2 / fit.stderr.sq) := by
  constructor
  · constructor
    · intro h
      by_contra hc
      rw [linregress, if_neg hc] at h
      exact Except.noConfusion h
    · intro h
      simp only [linregress, if_pos h]
  · intro h
    unfold linregress
    rw [if_neg h]
    exact ⟨_, rfl, rfl, rfl, rfl, rfl, rfl, rfl, rfl⟩

/-- Concrete instantiation of `linregress_spec` at the specification's
synthetic sample x = [1,2,3,4], y = [2,4,6,8]. -/
theorem linregress_spec_witness :
    (linregress [1, 2, 3, 4] [2, 4, 6, 8] =
        Except.error RegressError.insufficientData ↔
      (([1, 2, 3, 4] : List ℚ).length < 2 ∨ sxx [1, 2, 3, 4] = 0)) ∧
    (¬(([1, 2, 3, 4] : List ℚ).length < 2 ∨ sxx [1, 2, 3, 4] = 0) →
      ∃ fit : LinFit, linregress [1, 2, 3, 4] [2, 4, 6, 8] = Except.ok fit ∧
        fit.slope = sxy [1, 2, 3, 4] [2, 4, 6, 8] / sxx [1, 2, 3, 4] ∧
        fit.intercept = lmean [2, 4, 6, 8] - fit.slope * lmean [1, 2, 3, 4] ∧
        fit.rvalue = ⟨sxy [1, 2, 3, 4] [2, 4, 6, 8],
          sxx [1, 2, 3, 4] * sxx [2, 4, 6, 8]⟩ ∧
        fit.pvalue.df = ([1, 2, 3, 4] : List ℚ).length - 2 ∧
        fit.stderr.sq =
          ((sxx [2, 4, 6, 8] - fit.slope * sxy [1, 2, 3, 4] [2, 4, 6, 8]) /
              sxx [1, 2, 3, 4]) /
            (((([1, 2, 3, 4] : List ℚ).length - 2 : ℕ)) : ℚ) ∧
        fit.intercept_stderr.sq =
          fit.stderr.sq * (sxx [1, 2, 3, 4] / ([1, 2, 3, 4] : List ℚ).length +
            lmean [1, 2, 3, 4] ^ 2) ∧
        fit.pvalue.tSq = fit.slope ^ 2 / fit.stderr.sq) :=
  linregress_spec [1, 2, 3, 4] [2, 4, 6, 8] rfl

/-- Sanity check on the synthetic sample of §8: the fitted slope is exactly
2 and the intercept exactly 0. -/
theorem linregress_example_slope :
    linregress [1, 2, 3, 4] [2, 4, 6, 8] =
      Except.ok ⟨2, 0, ⟨10, 100⟩, ⟨2, 0⟩, ⟨0⟩, ⟨0⟩⟩ := by
  norm_num [linregress, sxx, sxy, lmean, List.zipWith]

/-! ## Pipeline A: correlation matrix and its heatmap mask -/

/-- One column of the eleven-column frame `data[['log_crime_rate'] +
demographics]`, over a sample of complete eleven-value rows. -/
def matrixCol (sample : List (Fin 11 → ℚ)) (i : Fin 11) : List ℚ :=
  sample.map fun row => row i

/-- Entry (i, j) of `DataFrame.corr()` on the eleven columns: the Pearson
coefficient Sxy / sqrt(Sxx · Syy), carried as a `CorrVal`. -/
def corrEntry (sample : List (Fin 11 → ℚ)) (i j : Fin 11) : CorrVal :=
  ⟨sxy (matrixCol sample i) (matrixCol sample j),
   sxx (matrixCol sample i) * sxx (matrixCol sample j)⟩

/-- The boolean mask of line 116, `np.triu(np.ones_like(corr, dtype=bool))`:
cell (i, j) is masked exactly when i ≤ j — the upper triangle including the
diagonal. -/
def triuMask (i j : Fin 11) : Bool := decide (i ≤ j)

/-- What the heatmap presents at cell (i, j): nothing where the mask holds,
elsewhere the already-computed matrix entry (not a recomputation). -/
def heatmapCell (sample : List (Fin 11 → ℚ)) (i j : Fin 11) : Option CorrVal :=
  if triuMask i j then none else some (corrEntry sample i j)

lemma sxy_self (xs : List ℚ) : sxy xs xs = sxx xs := by
  unfold sxy sxx
  rw [List.zipWith_same]
  simp [pow_two]

lemma sxy_comm (xs ys : List ℚ) : sxy xs ys = sxy ys xs := by
  unfold sxy
  rw [List.zipWith_comm]
  have hf : (fun b a => (a - lmean xs) * (b - lmean ys)) =
      fun a b => (a - lmean ys) * (b - lmean xs) := by
    funext a b
    ring
  rw [hf]

lemma sxx_nonneg (xs : List ℚ) : 0 ≤ sxx xs := by
  unfold sxx
  apply List.sum_nonneg
  intro a ha
  rcases List.mem_map.mp ha with ⟨b, _, rfl⟩
  positivity

/-- C7.  The correlation frame has eleven columns (log crime rate plus the
ten demographics); its matrix is symmetric; each diagonal entry is exactly 1
whenever the column has non-zero variance; and the rendering presents
exactly the strict lower triangle — the masked upper cells, diagonal
included, show nothing, the rest show the same computed entry. -/
theorem corrMatrix_spec (sample : List (Fin 11 → ℚ)) :
    corrColumnNames.length = 11 ∧
    (∀ i j : Fin 11, corrEntry sample i j = corrEntry sample j i) ∧
    (∀ i : Fin 11, sxx (matrixCol sample i) ≠ 0 → (corrEntry sample i i).isOne) ∧
    (∀ i j : Fin 11, heatmapCell sample i j =
      if j < i then some (corrEntry sample i j) else none) := by
  refine ⟨rfl, fun i j => ?_, fun i hi => ?_, fun i j => ?_⟩
  · unfold corrEntry
    rw [sxy_comm, mul_comm]
  · have hpos : 0 < sxx (matrixCol sample i) :=
      lt_of_le_of_ne (sxx_nonneg _) (Ne.symm hi)
    have hnum : (corrEntry sample i i).num = sxx (matrixCol sample i) := by
      simp [corrEntry, sxy_self]
    have hden : (corrEntry sample i i).denSq =
        sxx (matrixCol sample i) * sxx (matrixCol sample i) := rfl
    exact ⟨by rw [hnum]; exact hpos, by rw [hnum, hden, pow_two]⟩
  · unfold heatmapCell triuMask
    by_cases h : i ≤ j
    · simp [h, not_lt.mpr h]
    · simp [h, not_le.mp h]

/-- A two-row sample whose columns all have non-zero variance. -/
def wSample : List (Fin 11 → ℚ) := [fun _ => 0, fun _ => 1]

/-- Concrete instantiation of `corrMatrix_spec` at `wSample`: the first
diagonal entry of its correlation matrix is exactly 1. -/
theorem corrMatrix_spec_witness : (corrEntry wSample 0 0).isOne :=
  (corrMatrix_spec wSample).2.2.1 0
    (by norm_num [matrixCol, wSample, sxx, lmean])

/-! ## Pipeline A: the regression report text -/

/-- Left-pad a string to width `w` with copies of `c` (python right-align). -/
def padLeft (c : Char) (w : Nat) (s : String) : String :=
  String.mk (List.replicate (w - s.length) c) ++ s

/-- Right-pad a string to width `w` with copies of `c` (python left-align,
used for the width-25 labels). -/
def padRight (c : Char) (w : Nat) (s : String) : String :=
  s ++ String.mk (List.replicate (w - s.length) c)

/-- Round to the nearest integer, ties to even — the rounding of python's
fixed-point float formatting. -/
def roundHalfEven (q : ℚ) : ℤ :=
  if q - ⌊q⌋ < 1/2 then ⌊q⌋
  else if 1/2 < q - ⌊q⌋ then ⌊q⌋ + 1
  else if ⌊q⌋ % 2 = 0 then ⌊q⌋ else ⌊q⌋ + 1

/-- The decimal digit character of n mod 10. -/
def digitChar10 (n : Nat) : Char := Char.ofNat (48 + n % 10)

/-- The exactly-six-digit decimal rendering of a remainder below 10⁶. -/
def sixDigits (m : Nat) : String :=
  String.mk [digitChar10 (m / 100000), digitChar10 (m / 10000), digitChar10 (m / 1000),
    digitChar10 (m / 100), digitChar10 (m / 10), digitChar10 m]

/-- Embedding of the float format used for every reported number,
`f'{v:>10.6f}'`: round the value to six decimal places (ties to even),
render sign, integer part, point and exactly six fractional digits, and
right-align the result to a minimum width of 10. -/
def formatFixed (v : ℚ) : String :=
  let n := roundHalfEven (v * 1000000)
  padLeft ' ' 10
    ((if n < 0 then "-" else "") ++ toString (n.natAbs / 1000000) ++ "." ++
      sixDigits (n.natAbs % 1000000))

/-- The four statistics the script prints for one fit (lines 100–103 and
106–109). -/
structure FitStats where
  rvalue : ℚ
  pvalue : ℚ
  stderr : ℚ
  intercept_stderr : ℚ
deriving DecidableEq

/-- One label-and-value line of the report: label left-justified to width
25, value right-aligned to width 10 with six decimals, newline. -/
def statLine (label : String) (v : ℚ) : String :=
  padRight ' ' 25 label ++ formatFixed v ++ "\n"

/-- The four statistic lines of one fit block. -/
def fitLines (f : FitStats) : String :=
  statLine "Correlation coefficient:" f.rvalue ++ statLine "p-value:" f.pvalue ++
    statLine "Error of slope:" f.stderr ++
    statLine "Error of intercept:" f.intercept_stderr

/-- The `x_linregress.txt` report of lines 98–109 for one feature: header
and four statistics of the raw fit, a blank line, then header and four
statistics of the log fit. -/
def regressReport (x y : String) (fit fitLog : FitStats) : String :=
  "Information we get from the linear regression for (" ++ x ++ ", " ++ y ++ ")\n" ++
    fitLines fit ++ "\n" ++
    "Information we get from the linear regression for (" ++ x ++ ", log(" ++ y ++ "))\n" ++
    fitLines fitLog

/-- The eight numbers the report contains for one feature. -/
def reportNumbers (fit fitLog : FitStats) : List ℚ :=
  [fit.rvalue, fit.pvalue, fit.stderr, fit.intercept_stderr,
   fitLog.rvalue, fitLog.pvalue, fitLog.stderr, fitLog.intercept_stderr]

lemma length_padLeft (c : Char) (w : Nat) (s : String) :
    (padLeft c w s).length = max w s.length := by
  rw [padLeft, String.length_append]
  have h : (String.mk (List.replicate (w - s.length) c)).length = w - s.length := by
    show (List.replicate (w - s.length) c).length = w - s.length
    simp
  rw [h]
  omega

lemma le_length_padLeft (c : Char) (w : Nat) (s : String) :
    w ≤ (padLeft c w s).length := by
  rw [length_padLeft]
  exact le_max_left _ _

lemma isDigit_digitChar10 (n : Nat) : (digitChar10 n).isDigit = true := by
  have h : n % 10 < 10 := Nat.mod_lt _ (by norm_num)
  unfold digitChar10
  set r := n % 10 with hr
  interval_cases r <;> decide

lemma sixDigits_digits (m : Nat) : ∀ ch ∈ (sixDigits m).data, ch.isDigit = true := by
  intro ch hch
  have hch' : ch ∈ [digitChar10 (m / 100000), digitChar10 (m / 10000),
      digitChar10 (m / 1000), digitChar10 (m / 100), digitChar10 (m / 10),
      digitChar10 m] := hch
  fin_cases hch' <;> exact isDigit_digitChar10 _

/-- C9.  The report builder is a pure function — two runs on the same input
yield the identical text byte for byte; the report carries exactly eight
numbers per feature (four per fit, for the raw and the log fit); the text
is the fixed concatenation of the two headers and those eight formatted
numbers; and each number is rendered at width at least 10 with exactly six
decimal digits after the point. -/
theorem regressReport_spec (x y : String) (fit fitLog : FitStats) :
    (regressReport x y fit fitLog = regressReport x y fit fitLog) ∧
    (reportNumbers fit fitLog).length = 8 ∧
    (regressReport x y fit fitLog =
      "Information we get from the linear regression for (" ++ x ++ ", " ++ y ++ ")\n" ++
        (statLine "Correlation coefficient:" fit.rvalue ++
          statLine "p-value:" fit.pvalue ++ statLine "Error of slope:" fit.stderr ++
          statLine "Error of intercept:" fit.intercept_stderr) ++ "\n" ++
        "Information we get from the linear regression for (" ++ x ++ ", log(" ++
          y ++ "))\n" ++
        (statLine "Correlation coefficient:" fitLog.rvalue ++
          statLine "p-value:" fitLog.pvalue ++
          statLine "Error of slope:" fitLog.stderr ++
          statLine "Error of intercept:" fitLog.intercept_stderr)) ∧
    (∀ v ∈ reportNumbers fit fitLog,
      10 ≤ (formatFixed v).length ∧
      ∃ pre : String,
        formatFixed v =
          padLeft ' ' 10 (pre ++ "." ++
            sixDigits ((roundHalfEven (v * 1000000)).natAbs % 1000000)) ∧
        (sixDigits ((roundHalfEven (v * 1000000)).natAbs % 1000000)).length = 6 ∧
        ∀ ch ∈ (sixDigits ((roundHalfEven (v * 1000000)).natAbs % 1000000)).data,
          ch.isDigit = true) := by
  refine ⟨rfl, rfl, rfl, fun v _ => ⟨le_length_padLeft ' ' 10 _, ?_⟩⟩
  exact ⟨(if roundHalfEven (v * 1000000) < 0 then "-" else "") ++
      toString ((roundHalfEven (v * 1000000)).natAbs / 1000000),
    rfl, rfl, sixDigits_digits _⟩

/-- Concrete instantiation of `regressReport_spec`'s formatting clause at
the value 3/2. -/
theorem regressReport_spec_witness :
    10 ≤ (formatFixed (3/2)).length ∧
      ∃ pre : String,
        formatFixed (3/2) =
          padLeft ' ' 10 (pre ++ "." ++
            sixDigits ((roundHalfEven ((3/2 : ℚ) * 1000000)).natAbs % 1000000)) ∧
        (sixDigits ((roundHalfEven ((3/2 : ℚ) * 1000000)).natAbs % 1000000)).length = 6 ∧
        ∀ ch ∈ (sixDigits ((roundHalfEven ((3/2 : ℚ) * 1000000)).natAbs % 1000000)).data,
          ch.isDigit = true :=
  (regressReport_spec "pop_density" "crime_rate" ⟨3/2, 3/2, 3/2, 3/2⟩
    ⟨3/2, 3/2, 3/2, 3/2⟩).2.2.2 (3/2) (by simp [reportNumbers])

end VancouverCrimes
